import Mathlib

/-!
Verification of the post-extracter batch pipeline and HTML transform.

Shallow embedding of `src/clean_html_posts-stable.py` and
`src/process-csv-only.py`.

* The batch coordinator (`process_csv_in_batches`, `process_skipped_rows`,
  `main` of `clean_html_posts-stable.py`) is modelled over row *indices*:
  a `Rows` value records, per original index, whether the row is a draft
  and whether its processing raises on the first attempt (`fails1`, the
  primary batch pass) or on the second attempt (`fails2`, the retry pass).
  Rows are identified by their position `0..N-1` (pandas `df.index`, the
  `__batch_index` column of the script).
* The HTML transform (`transform_html_body` of both scripts) is modelled
  on a tree type `Html` mirroring the parsed BeautifulSoup fragment; the
  string-level steps (slugify, leading-numbering removal, URL path
  extraction) are modelled character by character after Python's ASCII
  behaviour.
-/

namespace PostExtract

/-! ## Batch coordinator (clean_html_posts-stable.py)

`process_csv_in_batches` slices `range(0, total_rows, batch_size)` into
contiguous batches (`full_df.iloc[start:end]`).  `chunks B l` reproduces
that slicing on the list of row indices. -/

/-- Fuel-driven worker for `chunks` (the fuel only serves to make the
recursion structural; `chunks` always supplies enough of it). -/
def chunksAux (B : Nat) : Nat → List Nat → List (List Nat)
  | _, [] => []
  | 0, _ :: _ => []
  | f + 1, a :: l => (a :: l.take (B - 1)) :: chunksAux B f (l.drop (B - 1))

/-- Contiguous chunks of size `B` (the final chunk may be shorter), as
produced by `for start_idx in range(0, total_rows, batch_size)` together
with `full_df.iloc[start_idx:end_idx]`. -/
def chunks (B : Nat) (l : List Nat) : List (List Nat) := chunksAux B l.length l

/-- The value `(total_rows + batch_size - 1) // batch_size`, the number of batches
printed and iterated by `process_csv_in_batches`. -/
def numBatches (N B : Nat) : Nat := (N + B - 1) / B

/-- The list of batches of row indices for `N` rows and batch size `B`. -/
def slices (N B : Nat) : List (List Nat) := chunks B (List.range N)

/-- Per-index behaviour of the input rows: `draft i` is the draft-status
test of `process_batch` (`df["status"]...== "draft"`), `fails1 i` and
`fails2 i` say whether processing row `i` raises an exception on the
primary pass resp. on the retry pass. -/
structure Rows where
  draft : Nat → Bool
  fails1 : Nat → Bool
  fails2 : Nat → Bool

/-- Whether `process_batch` raises on this batch: there is no per-row
`try` inside `process_batch`, so the batch raises as soon as any
non-draft row of it raises (draft rows are filtered out before any
processing step can raise). -/
def batchRaises (R : Rows) (b : List Nat) : Bool :=
  b.any (fun i => !R.draft i && R.fails1 i)

/-- The indices added to `processed_indices` by the primary pass: for each
batch that does not raise, `processed_indices.update(batch_indices)` adds
the *whole* pre-filter batch (draft rows included); a raising batch adds
nothing (the `except` branch just continues). -/
def primaryProcessed (R : Rows) (N B : Nat) : List Nat :=
  ((slices N B).map (fun b => if batchRaises R b then [] else b)).flatten

/-- The row identities appended to the output CSV by the primary pass, in
write order: each non-raising batch appends its rows minus the draft rows
(`df = df[df["status"] ... != "draft"]`). -/
def primaryOutput (R : Rows) (N B : Nat) : List Nat :=
  ((slices N B).map
    (fun b => if batchRaises R b then [] else b.filter (fun i => !R.draft i))).flatten

/-- The set `skipped_indices = all_indices - processed_indices`, listed in
ascending order (`process_skipped_rows` iterates `sorted(skipped)`). -/
def skipped (R : Rows) (N B : Nat) : List Nat :=
  (List.range N).filter (fun i => decide (i ∉ primaryProcessed R N B))

/-- Whether the single-row retry of `process_skipped_rows` succeeds for
index `i`: a draft row yields an empty frame (no exception), otherwise
the row must not raise on the second attempt. -/
def retrySucceeds (R : Rows) (i : Nat) : Bool := R.draft i || !R.fails2 i

/-- The set `still_skipped = set(skipped_indices) - set(successfully_processed)`,
the permanent-failure set returned to `main`. -/
def stillSkipped (R : Rows) (N B : Nat) : List Nat :=
  (skipped R N B).filter (fun i => !retrySucceeds R i)

/-- The row identities appended to the output CSV by the retry pass (in
ascending index order): retried non-draft rows that do not raise. -/
def retryOutput (R : Rows) (N B : Nat) : List Nat :=
  (skipped R N B).filter (fun i => !R.draft i && !R.fails2 i)

/-- Row identity order of the final output CSV: the primary-pass writes
followed by the retry-pass appends (`to_csv(..., mode='a')`). -/
def finalOutput (R : Rows) (N B : Nat) : List Nat :=
  primaryOutput R N B ++ retryOutput R N B

/-- The permanent-failure report surfaced by `main`: `some l` means the
pipeline ran to completion and `l` is the list of permanently failed
indices (written to `skipped_rows.txt` when non-empty); `none` means the
run aborted with an unhandled exception: when every primary batch raised,
no `to_csv` call ever created the output file, and
`process_skipped_rows` crashes on `pd.read_csv(output_csv_path)` before
retrying anything. -/
def pipelineReport (R : Rows) (N B : Nat) : Option (List Nat) :=
  if skipped R N B = [] then some []
  else if (slices N B).all (fun b => batchRaises R b) then none
  else some (stillSkipped R N B)

/-- The contiguous batch that contains index `i` (for `i < N`). -/
def sliceOf (N B i : Nat) : List Nat :=
  List.range' (i / B * B) (min B (N - i / B * B))

/-! ## Text primitives

Python string and regex behaviour, modelled character by character.  The
pipeline only relies on the ASCII behaviour of `str.strip`, `str.lower`,
`\w`, `\s` and `\d` (strings entering `slugify` are ASCII-encoded first),
so the embeddings below follow Python exactly on ASCII code points. -/

/-- The ASCII code points matched by Python's `str.isspace` (and by the
regex class `\s`): `\t \n \v \f \r`, the separators `\x1c`–`\x1f`, and
the space. -/
def pySpace (c : Char) : Bool :=
  (9 ≤ c.toNat && c.toNat ≤ 13) || (28 ≤ c.toNat && c.toNat ≤ 32)

/-- Python `str.strip()`: remove leading and trailing whitespace. -/
def pyStripL (l : List Char) : List Char :=
  ((l.dropWhile pySpace).reverse.dropWhile pySpace).reverse

/-- Python `str.strip()` on a string. -/
def pyStrip (s : String) : String := String.mk (pyStripL s.data)

/-- Python `str.lower()` on the ASCII range (`Char.toLower` maps exactly the
basic latin letters `A`–`Z`, like Python's lowercasing does on ASCII). -/
def pyLower (s : String) : String := String.mk (s.data.map Char.toLower)

/-- The normalization `col.strip().lower()` of column headers in
`process_batch` / `clean_content_column_in_batches`
(`df.columns = [col.strip().lower() for col in df.columns]`). -/
def normalizeCol (s : String) : String := pyLower (pyStrip s)

/-- The regex class `\w` on ASCII text: letters, digits, underscore. -/
def isWordChar (c : Char) : Bool :=
  (48 ≤ c.toNat && c.toNat ≤ 57) || (65 ≤ c.toNat && c.toNat ≤ 90) ||
    (97 ≤ c.toNat && c.toNat ≤ 122) || c.toNat = 95

/-- The regex class `[\s_-]` collapsed by `slugify`'s final
`re.sub(r"[\s_-]+", "-", text)` (code points 95 and 45 are `_` and `-`). -/
def isRunChar (c : Char) : Bool := pySpace c || c.toNat = 95 || c.toNat = 45

/-- Worker for `re.sub(r"[\s_-]+", "-", text)`: the boolean records
whether we are inside a run already replaced by a hyphen. -/
def collapseAux : Bool → List Char → List Char
  | _, [] => []
  | inRun, c :: rest =>
      if isRunChar c then
        if inRun then collapseAux true rest else '-' :: collapseAux true rest
      else c :: collapseAux false rest

/-- The substitution `re.sub(r"[\s_-]+", "-", text)`: each maximal run of
whitespace/underscore/hyphen becomes one hyphen. -/
def collapseRuns (l : List Char) : List Char := collapseAux false l

/-- The function `slugify` of `clean_html_posts-stable.py` (lines 31–35), character
level.  The leading `unicodedata.normalize("NFKD", text)` call is the
external Unicode normalizer (spec §1 treats it as an out-of-scope
collaborator); it is the identity on ASCII text and the theorems below
quantify over *all* input strings, hence over every possible normalized
form.  The remaining steps are modelled exactly:
`text.encode("ascii","ignore")` keeps code points `< 128`,
`re.sub(r"[^\w\s-]", "", ...)` keeps word chars, whitespace and hyphens,
then `.strip()`, `.lower()`, and the run collapse. -/
def slugifyL (l : List Char) : List Char :=
  let l1 := l.filter (fun c => c.toNat < 128)
  let l2 := l1.filter (fun c => isWordChar c || pySpace c || c = '-')
  let l3 := pyStripL l2
  let l4 := l3.map Char.toLower
  collapseRuns l4

/-- The function `slugify` of `clean_html_posts-stable.py` on strings. -/
def slugify (s : String) : String := String.mk (slugifyL s.data)

/-- The extra final step of `slugify` in `process-csv-only.py`
(line 50): `re.sub(r"^\d+-*", "", slug)` drops a leading run of digits
(if any) and the hyphens following it; without a leading digit the
pattern does not match and the slug is unchanged. -/
def dropLeadingDigits : List Char → List Char
  | [] => []
  | c :: l =>
      if c.isDigit then ((c :: l).dropWhile Char.isDigit).dropWhile (fun d => d = '-')
      else c :: l

namespace CsvOnly

/-- The function `slugify` of `process-csv-only.py` (lines 40–50): the stable
pipeline followed by the removal of a leading digit run. -/
def slugify (s : String) : String := String.mk (dropLeadingDigits (slugifyL s.data))

end CsvOnly

/-- The punctuation class `[\.\-\)\:]` of `remove_leading_numbering`. -/
def numPunct (c : Char) : Bool := c = '.' || c = '-' || c = ')' || c = ':'

/-- The function `remove_leading_numbering` (lines 46–47):
`re.sub(r"^\s*\d+\s*[\.\-\)\:]*\s*", "", text)`.  The pattern must match
at least one digit; when it does not, the text (leading whitespace
included) is unchanged. -/
def removeLeadingNumberingL (l : List Char) : List Char :=
  let l1 := l.dropWhile pySpace
  match l1.head? with
  | some c =>
      if c.isDigit then
        (((l1.dropWhile Char.isDigit).dropWhile pySpace).dropWhile numPunct).dropWhile pySpace
      else l
  | none => l

/-- The function `remove_leading_numbering` on strings. -/
def removeLeadingNumbering (s : String) : String :=
  String.mk (removeLeadingNumberingL s.data)

/-- The character class `[a-z0-9-]` of the spec's slug contract. -/
def slugChar (c : Char) : Bool :=
  (97 ≤ c.toNat && c.toNat ≤ 122) || (48 ≤ c.toNat && c.toNat ≤ 57) || c.toNat = 45

/-- The draft test of `process_batch`:
`df["status"].astype(str).str.strip().str.lower() != "draft"`.  A missing
value (pandas `NaN`) stringifies to `"nan"`, which is not `"draft"`. -/
def isDraftStatus : Option String → Bool
  | none => false
  | some s => normalizeCol s == "draft"

/-- Rows described by their status column value and their two failure
bits; the draft bit is computed by the `process_batch` draft test. -/
def mkRows (status : Nat → Option String) (f1 f2 : Nat → Bool) : Rows :=
  ⟨fun i => isDraftStatus (status i), f1, f2⟩

/-- The statement `if "status" in df.columns: ... df = df.drop(columns=["status"])`
at the schema level (pandas `drop` removes every column with that
label). -/
def dropStatusColumn (cols : List String) : List String :=
  if "status" ∈ cols then cols.filter (fun c => c != "status") else cols

/-- The statement `if "all images" in df.columns: ... df = df.drop(columns=["all images"])`
at the schema level. -/
def dropAllImagesColumn (cols : List String) : List String :=
  if "all images" ∈ cols then cols.filter (fun c => c != "all images") else cols

/-- Schema effect of `process_batch` (and of
`clean_content_column_in_batches` of `process-csv-only.py`): headers are
normalized by `col.strip().lower()`, then the `status` column is dropped
(after draft filtering) if present, then the `all images` column is
dropped if present. -/
def processBatchColumns (cols : List String) : List String :=
  dropAllImagesColumn (dropStatusColumn (cols.map normalizeCol))

/-! ## URL handling (`urllib.parse.urlparse` and `os.path.basename`)

Only the `.path` component is consumed by the scripts.  The embedding
follows CPython's `urlsplit`: strip the fragment, split off a valid
scheme, skip a `//netloc` up to the next `/`, `?` or `#`, strip the
query, and (for `urlparse`) strip the `;params` of the last path
segment. -/

/-- The characters allowed in a URL scheme after the initial letter. -/
def isSchemeChar (c : Char) : Bool :=
  c.isAlpha || c.isDigit || c = '+' || c = '-' || c = '.'

/-- Split off `scheme:` when the text before the first colon is a valid
scheme name (initial ASCII letter, then scheme characters). -/
def dropScheme (l : List Char) : List Char :=
  match l.dropWhile (fun c => c != ':') with
  | [] => l
  | _ :: rest =>
      match l.takeWhile (fun c => c != ':') with
      | [] => l
      | c :: cs => if c.isAlpha && (c :: cs).all isSchemeChar then rest else l

/-- Skip a leading `//netloc`, the netloc running to the next `/`, `?`
or `#`. -/
def dropNetloc (l : List Char) : List Char :=
  match l with
  | '/' :: '/' :: rest => rest.dropWhile (fun c => !(c = '/' || c = '?' || c = '#'))
  | _ => l

/-- Python `urlparse` splits `;params` off the last segment of the path. -/
def stripParams (l : List Char) : List Char :=
  if l.contains '/' then
    (l.reverse.dropWhile (fun c => c != '/')).reverse ++
      ((l.reverse.takeWhile (fun c => c != '/')).reverse.takeWhile (fun c => c != ';'))
  else l.takeWhile (fun c => c != ';')

/-- The component `urlparse(u).path`. -/
def urlPathL (l : List Char) : List Char :=
  stripParams (((dropNetloc (dropScheme (l.takeWhile (fun c => c != '#'))))).takeWhile
    (fun c => c != '?'))

/-- The component `urlparse(u).path` on strings. -/
def urlPath (s : String) : String := String.mk (urlPathL s.data)

/-- Python `os.path.basename(p)`: everything after the last `/`. -/
def basename (s : String) : String :=
  String.mk ((s.data.reverse.takeWhile (fun c => c != '/')).reverse)

/-- The `href` rewriting of `process-csv-only.py` (lines 149–161): the href
becomes the URL's path component when that component is non-empty
(`if relative_path:`), otherwise it is left unchanged. -/
def rewriteHref (u : String) : String := if urlPath u ≠ "" then urlPath u else u

/-! ## HTML tree model

A parsed BeautifulSoup fragment: a forest of element and text nodes.
`transform_html_body` is modelled from the parse tree on (the leading
`re.sub(r'<!--\s*\/?wp:[^>]*-->', '', html)` is a pre-parse text
substitution, and `NaN`/bytes inputs are normalized before parsing). -/

inductive Html where
  | text (s : String)
  | elem (tag : String) (attrs : List (String × String)) (children : List Html)

/-- BeautifulSoup attribute assignment `tag["k"] = v`: replaces the
value in place when the key exists, appends the pair otherwise. -/
def setAttr (attrs : List (String × String)) (k v : String) : List (String × String) :=
  if attrs.any (fun p => p.1 == k) then attrs.map (fun p => if p.1 == k then (k, v) else p)
  else attrs ++ [(k, v)]

mutual

/-- The `NavigableString`s of a node, in document order. -/
def textsOfE : Html → List String
  | .text s => [s]
  | .elem _ _ ch => textsOfL ch

/-- The `NavigableString`s of a forest, in document order. -/
def textsOfL : List Html → List String
  | [] => []
  | x :: r => textsOfE x ++ textsOfL r

end

/-- BeautifulSoup `get_text(separator, strip=True)`: each descendant string is
stripped, empty results are skipped, the rest are joined with the
separator. -/
def getTextStrip (sep : String) (f : List Html) : String :=
  String.intercalate sep (((textsOfL f).map pyStrip).filter (fun s => s != ""))

/-- The replacement `element.replace("\xa0", " ")` (code point 160 is the
non-breaking space). -/
def replaceNbsp (s : String) : String :=
  String.mk (s.data.map (fun c => if c.toNat = 160 then ' ' else c))

mutual

/-- Step: replace non-breaking spaces in every text node (the loop over
`soup.find_all(string=True)`). -/
def stepNbspE : Html → Html
  | .text s => .text (replaceNbsp s)
  | .elem t a ch => .elem t a (stepNbspL ch)

def stepNbspL : List Html → List Html
  | [] => []
  | x :: r => stepNbspE x :: stepNbspL r

end

mutual

/-- The call `strong.unwrap()` applied to every `strong` descendant: the element
is replaced by its children. -/
def unwrapStrongE : Html → List Html
  | .text s => [.text s]
  | .elem t a ch =>
      if t = "strong" then unwrapStrongL ch else [.elem t a (unwrapStrongL ch)]

def unwrapStrongL : List Html → List Html
  | [] => []
  | x :: r => unwrapStrongE x ++ unwrapStrongL r

end

mutual

/-- Step: `for tag in soup.find_all(["h2","h3","p"]): for strong in
tag.find_all("strong"): strong.unwrap()` — inside every `h2`/`h3`/`p`
subtree, all `strong` elements are unwrapped. -/
def stepStrongE : Html → Html
  | .text s => .text s
  | .elem t a ch =>
      if t = "h2" ∨ t = "h3" ∨ t = "p" then .elem t a (unwrapStrongL ch)
      else .elem t a (stepStrongL ch)

def stepStrongL : List Html → List Html
  | [] => []
  | x :: r => stepStrongE x :: stepStrongL r

end

mutual

/-- Step: every (outermost) `p` has its content replaced by its flattened
text (`p.get_text(" ", strip=True)`) wrapped in a 14px span.  A `p`
nested inside another `p` is detached by the outer `clear()` before its
own turn, so only the outermost rewrite is visible. -/
def stepPE : Html → Html
  | .text s => .text s
  | .elem t a ch =>
      if t = "p" then
        .elem t a [.elem "span" [("style", "font-size:14px;")]
          [.text (getTextStrip " " ch)]]
      else .elem t a (stepPL ch)

def stepPL : List Html → List Html
  | [] => []
  | x :: r => stepPE x :: stepPL r

end

mutual

/-- The `h2.get_text(strip=True)` values collected by the `h2` loop, in
document order (`soup.find_all("h2")` materializes the list before any
mutation, so nested `h2`s contribute entries computed from their
unmodified subtrees even though the outer `clear()` detaches them). -/
def h2TextsE : Html → List String
  | .text _ => []
  | .elem t _ ch => (if t = "h2" then [getTextStrip "" ch] else []) ++ h2TextsL ch

def h2TextsL : List Html → List String
  | [] => []
  | x :: r => h2TextsE x ++ h2TextsL r

end

mutual

/-- Step: rewrite every outermost `h2`: content replaced by a bold copy
of the original flattened text, `id` set to the slug of the
numbering-stripped text, `style` fixed.  (`slugf` is the slugify variant
of the containing script.) -/
def stepH2E (slugf : String → String) : Html → Html
  | .text s => .text s
  | .elem t a ch =>
      if t = "h2" then
        .elem t (setAttr (setAttr a "id" (slugf (removeLeadingNumbering (getTextStrip "" ch))))
            "style" "font-size: 24px; color:#000000;")
          [.elem "b" [] [.text (getTextStrip "" ch)]]
      else .elem t a (stepH2L slugf ch)

def stepH2L (slugf : String → String) : List Html → List Html
  | [] => []
  | x :: r => stepH2E slugf x :: stepH2L slugf r

end

mutual

/-- Step: rewrite every outermost `h3`: content replaced by its flattened
text wrapped in an 18px span. -/
def stepH3E : Html → Html
  | .text s => .text s
  | .elem t a ch =>
      if t = "h3" then
        .elem t a [.elem "span" [("style", "font-size:18px;")]
          [.text (getTextStrip "" ch)]]
      else .elem t a (stepH3L ch)

def stepH3L : List Html → List Html
  | [] => []
  | x :: r => stepH3E x :: stepH3L r

end

mutual

/-- Step: every `img` with a `src` attribute has `src` replaced by
`os.path.basename(urlparse(src).path)` when that basename is non-empty. -/
def stepImgE : Html → Html
  | .text s => .text s
  | .elem t a ch =>
      .elem t
        (if t = "img" then
          match List.lookup "src" a with
          | some u => if basename (urlPath u) ≠ "" then setAttr a "src" (basename (urlPath u)) else a
          | none => a
        else a)
        (stepImgL ch)

def stepImgL : List Html → List Html
  | [] => []
  | x :: r => stepImgE x :: stepImgL r

end

mutual

/-- Step (`process-csv-only.py` only): every `a` with an `href`
attribute has `href` replaced by the URL's path component when
non-empty; the anchor element itself is preserved. -/
def stepAHrefE : Html → Html
  | .text s => .text s
  | .elem t a ch =>
      .elem t
        (if t = "a" then
          match List.lookup "href" a with
          | some u => if urlPath u ≠ "" then setAttr a "href" (urlPath u) else a
          | none => a
        else a)
        (stepAHrefL ch)

def stepAHrefL : List Html → List Html
  | [] => []
  | x :: r => stepAHrefE x :: stepAHrefL r

end

mutual

/-- Step (`clean_html_posts-stable.py` only, lines 111–114): every `a`
gets a space inserted before and after it and is then unwrapped
(replaced by its children). -/
def stepAUnwrapE : Html → List Html
  | .text s => [.text s]
  | .elem t a ch =>
      if t = "a" then .text " " :: (stepAUnwrapL ch ++ [.text " "])
      else [.elem t a (stepAUnwrapL ch)]

def stepAUnwrapL : List Html → List Html
  | [] => []
  | x :: r => stepAUnwrapE x ++ stepAUnwrapL r

end

/-- One TOC list item: `<li><a href="#{slug}">{text}</a></li>` (the
display text is inserted as a text node, exact for texts without markup
metacharacters). -/
def tocLi (e : String × String) : Html :=
  .elem "li" [] [.elem "a" [("href", "#" ++ e.1)] [.text e.2]]

/-- The TOC block built by `transform_html_body`: a styled `div` holding
a bold label and an ordered list of anchor links. -/
def tocBlock (entries : List (String × String)) : Html :=
  .elem "div"
    [("style", "background-color: #f9f9f9; padding: 16px; border-radius: 8px; margin-bottom: 20px;")]
    [.elem "strong" [] [.text "Table of Contents"],
     .elem "ol" [("style", "padding-left: 20px; margin-top: 8px; line-height: 1.8;")]
       (entries.map tocLi)]

/-- The `(slug, clean_text)` pairs appended to `toc_items` by the `h2`
loop, parametrized by the slugify variant of the script. -/
def tocEntries (slugf : String → String) (f : List Html) : List (String × String) :=
  (h2TextsL f).map (fun t => (slugf (removeLeadingNumbering t), removeLeadingNumbering t))

/-- The steps shared by both scripts before the `h2` loop runs:
non-breaking-space replacement, strong-unwrapping, paragraph rewrite. -/
def preH2 (f : List Html) : List Html := stepPL (stepStrongL (stepNbspL f))

/-- The function `transform_html_body` of `clean_html_posts-stable.py` (lines
49–116) at the tree level: pre-steps, `h2` loop (collecting
`toc_items`), `h3` loop, `img` loop, TOC insertion as first child when
any entry exists, and finally the unwrap of **all** anchors — including
the anchors of the just-inserted TOC. -/
def transform_html_body (f : List Html) : List Html :=
  let f3 := preH2 f
  let entries := tocEntries slugify f3
  let f6 := stepImgL (stepH3L (stepH2L slugify f3))
  stepAUnwrapL (if entries = [] then f6 else tocBlock entries :: f6)

namespace CsvOnly

/-- The function `transform_html_body` of `process-csv-only.py` (lines 73–178) at the
tree level: pre-steps, `h2` loop, `h3` loop, `img` loop, anchor `href`
rewrite, and TOC insertion as first child when any entry exists (the
anchor unwrap of the stable script was removed in this variant). -/
def transform_html_body (f : List Html) : List Html :=
  let f3 := preH2 f
  let entries := tocEntries CsvOnly.slugify f3
  let f7 := stepAHrefL (stepImgL (stepH3L (stepH2L CsvOnly.slugify f3)))
  if entries = [] then f7 else tocBlock entries :: f7

end CsvOnly

mutual

/-- The number of elements with the given tag in a node (descendants
included). -/
def countTagE (t : String) : Html → Nat
  | .text _ => 0
  | .elem t2 _ ch => (if t2 = t then 1 else 0) + countTagL t ch

/-- The number of elements with the given tag in a forest. -/
def countTagL (t : String) : List Html → Nat
  | [] => 0
  | x :: r => countTagE t x + countTagL t r

end

mutual

/-- No `h2` element sits inside a `p` element (such an `h2` would be
destroyed by the paragraph rewrite before the `h2` loop runs). -/
def h2FreeInPE : Html → Bool
  | .text _ => true
  | .elem t _ ch => if t = "p" then countTagL "h2" ch == 0 else h2FreeInPL ch

def h2FreeInPL : List Html → Bool
  | [] => true
  | x :: r => h2FreeInPE x && h2FreeInPL r

end

mutual

/-- The `href` attribute values (`none` when absent) of the anchor
elements of a node, in document order. -/
def anchorHrefsE : Html → List (Option String)
  | .text _ => []
  | .elem t a ch => (if t = "a" then [List.lookup "href" a] else []) ++ anchorHrefsL ch

/-- The `href` attribute values of the anchors of a forest. -/
def anchorHrefsL : List Html → List (Option String)
  | [] => []
  | x :: r => anchorHrefsE x ++ anchorHrefsL r

end

end PostExtract

namespace PostExtract

/-! ### Arithmetic facts about the batch slicing -/

theorem chunksAux_congr (B : Nat) :
    ∀ (f1 f2 : Nat) (l : List Nat), l.length ≤ f1 → l.length ≤ f2 →
      chunksAux B f1 l = chunksAux B f2 l
  | f1, f2, [], _, _ => by cases f1 <;> cases f2 <;> rfl
  | 0, _, _ :: _, h1, _ => by simp at h1
  | _ + 1, 0, _ :: _, _, h2 => by simp at h2
  | f1 + 1, f2 + 1, a :: l, h1, h2 => by
      rw [chunksAux, chunksAux,
        chunksAux_congr B f1 f2 (l.drop (B - 1))
          (by simp at h1 ⊢; omega) (by simp at h2 ⊢; omega)]

theorem chunks_cons (B : Nat) (a : Nat) (l : List Nat) :
    chunks B (a :: l) = (a :: l.take (B - 1)) :: chunks B (l.drop (B - 1)) := by
  show chunksAux B (l.length + 1) (a :: l) = _
  rw [chunksAux]
  rw [chunksAux_congr B l.length (l.drop (B - 1)).length (l.drop (B - 1))
    (by simp) (Nat.le_refl _)]
  rfl

theorem chunks_flatten (B : Nat) : ∀ l : List Nat, (chunks B l).flatten = l
  | [] => rfl
  | a :: l => by
      rw [chunks_cons, List.flatten_cons, List.cons_append,
        chunks_flatten B (l.drop (B - 1)), List.take_append_drop]
termination_by l => l.length
decreasing_by simp [List.length_drop]; omega

theorem range'_take : ∀ (m s n : Nat), (List.range' s n).take m = List.range' s (min m n)
  | 0, _, _ => by simp
  | _ + 1, _, 0 => by simp
  | m + 1, s, n + 1 => by
      rw [List.range'_succ, List.take_succ_cons, range'_take m (s + 1) n,
        Nat.succ_min_succ, List.range'_succ]

theorem range'_drop : ∀ (m s n : Nat), (List.range' s n).drop m = List.range' (s + m) (n - m)
  | 0, _, _ => by simp
  | _ + 1, _, 0 => by simp
  | m + 1, s, n + 1 => by
      rw [List.range'_succ, List.drop_succ_cons, range'_drop m (s + 1) n]
      congr 1 <;> omega

theorem numBatches_zero (B : Nat) : numBatches 0 B = 0 := by
  unfold numBatches
  match B with
  | 0 => rfl
  | b + 1 => exact Nat.div_eq_of_lt (by omega)

theorem numBatches_succ (B n : Nat) (hB : 0 < B) (hn : 0 < n) :
    numBatches n B = numBatches (n - B) B + 1 := by
  unfold numBatches
  rcases Nat.le_total n B with h | h
  · have h1 : n - B = 0 := by omega
    rw [h1]
    have h2 : (0 + B - 1) / B = 0 := Nat.div_eq_of_lt (by omega)
    rw [h2]
    have h3 : n + B - 1 = (n - 1) + B := by omega
    rw [h3, Nat.add_div_right _ hB]
    have h4 : (n - 1) / B = 0 := Nat.div_eq_of_lt (by omega)
    omega
  · have h3 : n + B - 1 = (n - B + B - 1) + B := by omega
    rw [h3, Nat.add_div_right _ hB]

theorem chunks_range' (B : Nat) (hB : 0 < B) :
    ∀ n s, chunks B (List.range' s n) =
      (List.range (numBatches n B)).map
        (fun j => List.range' (s + j * B) (min B (n - j * B))) := by
  intro n
  induction n using Nat.strong_induction_on with
  | _ n ih =>
    intro s
    match n with
    | 0 => simp [chunks, chunksAux, numBatches_zero]
    | m + 1 =>
      rw [List.range'_succ, chunks_cons, range'_take, range'_drop]
      have hs : s + 1 + (B - 1) = s + B := by omega
      have hm : m - (B - 1) = m + 1 - B := by omega
      rw [hs, hm, ih (m + 1 - B) (by omega) (s + B)]
      rw [numBatches_succ B (m + 1) hB (by omega), List.range_succ_eq_map,
        List.map_cons, List.map_map]
      congr 1
      · have h1 : min B (m + 1) = min (B - 1) m + 1 := by omega
        rw [Nat.zero_mul, Nat.sub_zero, h1, List.range'_succ]
        simp
      · apply List.map_congr_left
        intro j _
        have h2 : (j + 1) * B = j * B + B := Nat.succ_mul j B
        simp only [Function.comp_apply, h2]
        congr 1 <;> omega

theorem slices_eq (N B : Nat) (hB : 0 < B) :
    slices N B =
      (List.range (numBatches N B)).map
        (fun j => List.range' (j * B) (min B (N - j * B))) := by
  rw [slices, List.range_eq_range', chunks_range' B hB N 0]
  apply List.map_congr_left
  intro j _
  rw [Nat.zero_add]

theorem mul_lt_of_lt_numBatches {N B j : Nat} (hB : 0 < B) (hj : j < numBatches N B) :
    j * B < N := by
  unfold numBatches at hj
  have h1 : j + 1 ≤ (N + B - 1) / B := hj
  have h2 : (j + 1) * B ≤ N + B - 1 := (Nat.le_div_iff_mul_le hB).mp h1
  have h3 : (j + 1) * B = j * B + B := Nat.succ_mul j B
  omega

theorem numBatches_eq_of_pos {N B : Nat} (hB : 0 < B) (hN : 0 < N) :
    numBatches N B = (N - 1) / B + 1 := by
  unfold numBatches
  have h1 : N + B - 1 = (N - 1) + B := by omega
  rw [h1, Nat.add_div_right _ hB]

theorem div_lt_numBatches {N B i : Nat} (hB : 0 < B) (hi : i < N) :
    i / B < numBatches N B := by
  rw [numBatches_eq_of_pos hB (by omega)]
  have h1 : i / B ≤ (N - 1) / B := Nat.div_le_div_right (by omega)
  omega

theorem mem_slice_iff {N B j i : Nat} (hB : 0 < B) (hj : j < numBatches N B) :
    i ∈ List.range' (j * B) (min B (N - j * B)) ↔ i < N ∧ i / B = j := by
  have hjN : j * B < N := mul_lt_of_lt_numBatches hB hj
  have hmod : i % B < B := Nat.mod_lt _ hB
  have hdm : i / B * B + i % B = i := Nat.div_add_mod' i B
  rw [List.mem_range'_1]
  constructor
  · rintro ⟨h1, h2⟩
    rcases Nat.le_total B (N - j * B) with hc | hc
    · rw [Nat.min_eq_left hc] at h2
      exact ⟨by omega, Nat.div_eq_of_lt_le h1 (by rw [Nat.succ_mul]; omega)⟩
    · rw [Nat.min_eq_right hc] at h2
      exact ⟨by omega, Nat.div_eq_of_lt_le h1 (by rw [Nat.succ_mul]; omega)⟩
  · rintro ⟨hiN, hdiv⟩
    rw [hdiv] at hdm
    rcases Nat.le_total B (N - j * B) with hc | hc
    · rw [Nat.min_eq_left hc]
      omega
    · rw [Nat.min_eq_right hc]
      omega

theorem mem_slices_of_lt {N B i : Nat} (hB : 0 < B) (hi : i < N) :
    sliceOf N B i ∈ slices N B ∧ i ∈ sliceOf N B i := by
  have hj : i / B < numBatches N B := div_lt_numBatches hB hi
  constructor
  · rw [slices_eq N B hB]
    exact List.mem_map.mpr ⟨i / B, List.mem_range.mpr hj, rfl⟩
  · exact (mem_slice_iff hB hj).mpr ⟨hi, rfl⟩

theorem eq_sliceOf_of_mem {N B i : Nat} {b : List Nat} (hB : 0 < B)
    (hb : b ∈ slices N B) (hib : i ∈ b) : i < N ∧ b = sliceOf N B i := by
  rw [slices_eq N B hB] at hb
  obtain ⟨j, hj, rfl⟩ := List.mem_map.mp hb
  have hj' : j < numBatches N B := List.mem_range.mp hj
  obtain ⟨hiN, hdiv⟩ := (mem_slice_iff hB hj').mp hib
  refine ⟨hiN, ?_⟩
  rw [sliceOf, hdiv]

theorem mem_sliceOf_iff {N B j i : Nat} (hB : 0 < B) (hj : j < N) :
    i ∈ sliceOf N B j ↔ i < N ∧ i / B = j / B :=
  mem_slice_iff hB (div_lt_numBatches hB hj)

/-! ### Membership in the coordinator state -/

theorem mem_primaryProcessed {R : Rows} {N B i : Nat} (hB : 0 < B) :
    i ∈ primaryProcessed R N B ↔
      i < N ∧ batchRaises R (sliceOf N B i) = false := by
  unfold primaryProcessed
  rw [List.mem_flatten]
  constructor
  · rintro ⟨l, hl, hil⟩
    obtain ⟨b, hb, rfl⟩ := List.mem_map.mp hl
    by_cases hr : batchRaises R b
    · rw [if_pos hr] at hil
      exact absurd hil (List.not_mem_nil i)
    · rw [if_neg hr] at hil
      obtain ⟨hiN, rfl⟩ := eq_sliceOf_of_mem hB hb hil
      exact ⟨hiN, by simpa using hr⟩
  · rintro ⟨hiN, hr⟩
    obtain ⟨hmem, hin⟩ := mem_slices_of_lt hB hiN
    refine ⟨sliceOf N B i, List.mem_map.mpr ⟨sliceOf N B i, hmem, ?_⟩, hin⟩
    rw [hr]
    simp

theorem mem_primaryOutput {R : Rows} {N B i : Nat} (hB : 0 < B) :
    i ∈ primaryOutput R N B ↔
      i < N ∧ R.draft i = false ∧ batchRaises R (sliceOf N B i) = false := by
  unfold primaryOutput
  rw [List.mem_flatten]
  constructor
  · rintro ⟨l, hl, hil⟩
    obtain ⟨b, hb, rfl⟩ := List.mem_map.mp hl
    by_cases hr : batchRaises R b
    · rw [if_pos hr] at hil
      exact absurd hil (List.not_mem_nil i)
    · rw [if_neg hr] at hil
      obtain ⟨hib, hdraft⟩ := List.mem_filter.mp hil
      obtain ⟨hiN, rfl⟩ := eq_sliceOf_of_mem hB hb hib
      exact ⟨hiN, by simpa using hdraft, by simpa using hr⟩
  · rintro ⟨hiN, hd, hr⟩
    obtain ⟨hmem, hin⟩ := mem_slices_of_lt hB hiN
    refine ⟨(sliceOf N B i).filter (fun j => !R.draft j),
      List.mem_map.mpr ⟨sliceOf N B i, hmem, ?_⟩, ?_⟩
    · rw [hr]
      simp
    · exact List.mem_filter.mpr ⟨hin, by simp [hd]⟩

theorem mem_skipped {R : Rows} {N B i : Nat} (hB : 0 < B) :
    i ∈ skipped R N B ↔ i < N ∧ batchRaises R (sliceOf N B i) = true := by
  unfold skipped
  rw [List.mem_filter, List.mem_range]
  constructor
  · rintro ⟨hiN, hdec⟩
    have hnot : i ∉ primaryProcessed R N B := of_decide_eq_true hdec
    rw [mem_primaryProcessed hB] at hnot
    refine ⟨hiN, ?_⟩
    rcases Bool.eq_false_or_eq_true (batchRaises R (sliceOf N B i)) with h | h
    · exact h
    · exact absurd ⟨hiN, h⟩ hnot
  · rintro ⟨hiN, hr⟩
    refine ⟨hiN, decide_eq_true ?_⟩
    rw [mem_primaryProcessed hB]
    rintro ⟨-, hfalse⟩
    rw [hr] at hfalse
    exact Bool.noConfusion hfalse

theorem mem_retryOutput {R : Rows} {N B i : Nat} :
    i ∈ retryOutput R N B ↔
      i ∈ skipped R N B ∧ R.draft i = false ∧ R.fails2 i = false := by
  unfold retryOutput
  rw [List.mem_filter]
  constructor
  · rintro ⟨h1, h2⟩
    rcases Bool.and_eq_true .. |>.mp h2 with ⟨ha, hb⟩
    exact ⟨h1, by simpa using ha, by simpa using hb⟩
  · rintro ⟨h1, h2, h3⟩
    exact ⟨h1, by simp [h2, h3]⟩

theorem mem_stillSkipped {R : Rows} {N B i : Nat} :
    i ∈ stillSkipped R N B ↔
      i ∈ skipped R N B ∧ R.draft i = false ∧ R.fails2 i = true := by
  unfold stillSkipped retrySucceeds
  rw [List.mem_filter]
  constructor
  · rintro ⟨h1, h2⟩
    simp only [Bool.not_or, Bool.and_eq_true, Bool.not_eq_true'] at h2
    exact ⟨h1, h2.1, by simpa using h2.2⟩
  · rintro ⟨h1, h2, h3⟩
    exact ⟨h1, by simp [h2, h3]⟩

theorem skipped_nodup (R : Rows) (N B : Nat) : (skipped R N B).Nodup :=
  (List.nodup_range N).filter _

theorem filter_eq_single_of_nodup :
    ∀ {l : List Nat} {p : Nat → Bool} {k : Nat}, l.Nodup → k ∈ l → p k = true →
      (∀ i ∈ l, p i = true → i = k) → l.filter p = [k]
  | [], _, k, _, hk, _, _ => absurd hk (List.not_mem_nil k)
  | a :: l, p, k, hnd, hk, hpk, hothers => by
      rcases List.mem_cons.mp hk with rfl | hk'
      · rw [List.filter_cons_of_pos hpk]
        have hl : l.filter p = [] := by
          apply List.filter_eq_nil_iff.mpr
          intro i hi
          intro hpi
          have : i = k := hothers i (List.mem_cons_of_mem _ hi) hpi
          subst this
          exact (List.nodup_cons.mp hnd).1 hi
        rw [hl]
      · have hpa : p a = false := by
          rcases Bool.eq_false_or_eq_true (p a) with h | h
          · have hak : a = k := hothers a (List.mem_cons_self a l) h
            subst hak
            exact absurd hk' (List.nodup_cons.mp hnd).1
          · exact h
        rw [List.filter_cons_of_neg (by simp [hpa])]
        exact filter_eq_single_of_nodup (List.nodup_cons.mp hnd).2 hk' hpk
          (fun i hi hpi => hothers i (List.mem_cons_of_mem _ hi) hpi)

theorem slices_flatten (N B : Nat) : (slices N B).flatten = List.range N :=
  chunks_flatten B (List.range N)

theorem flatten_map_sublist (g : List Nat → List Nat) (h : ∀ b, (g b).Sublist b) :
    ∀ L : List (List Nat), ((L.map g).flatten).Sublist L.flatten
  | [] => List.Sublist.refl []
  | b :: L => by
      rw [List.map_cons, List.flatten_cons, List.flatten_cons]
      exact List.Sublist.append (h b) (flatten_map_sublist g h L)

theorem batchRaises_eq_false_of_no_failure {R : Rows} {N B : Nat} (hB : 0 < B)
    (hno : ∀ i, i < N → R.fails1 i = false) {b : List Nat} (hb : b ∈ slices N B) :
    batchRaises R b = false := by
  unfold batchRaises
  rw [List.any_eq_false]
  intro i hib
  obtain ⟨hiN, -⟩ := eq_sliceOf_of_mem hB hb hib
  simp [hno i hiN]

/-! ## Claim theorems: batch coordinator -/

/-- C1 (counterexample): a single permanently failing row with everything
in one batch (1 row, batch size 30, as in `BATCH_SIZE = 30`).  The claim
says the pipeline terminates and reports exactly `{0}`; instead the sole
batch raises, no `to_csv` call ever creates the output file, and
`process_skipped_rows` crashes on `pd.read_csv(output_csv_path)`
(modelled as report `none`): no failure report is produced. -/
theorem c1_single_batch_crash :
    pipelineReport ⟨fun _ => false, fun i => decide (i = 0), fun i => decide (i = 0)⟩ 1 30
        = none ∧
      pipelineReport ⟨fun _ => false, fun i => decide (i = 0), fun i => decide (i = 0)⟩ 1 30
        ≠ some [0] := by
  constructor
  · decide
  · decide

/-- C1 (amended): if the rows span more than one batch (`B < N`), a single
row `k` that fails on both attempts is reported as exactly `[k]` and every
other index is written to the output.  (With a single batch the retry pass
crashes reading the never-created output file, see
`c1_single_batch_crash`.) -/
theorem c1_permanent_failure_reported (R : Rows) (N B k : Nat) (hB : 0 < B)
    (hBN : B < N) (hk : k < N) (hd : ∀ i, R.draft i = false)
    (h1 : ∀ i, R.fails1 i = decide (i = k)) (h2 : ∀ i, R.fails2 i = decide (i = k)) :
    pipelineReport R N B = some [k] ∧
      ∀ i ∈ List.range N, i ≠ k → i ∈ finalOutput R N B := by
  have hraise : ∀ b : List Nat, batchRaises R b = true ↔ k ∈ b := by
    intro b
    unfold batchRaises
    rw [List.any_eq_true]
    constructor
    · rintro ⟨i, hib, hcond⟩
      rw [hd i, h1 i] at hcond
      simp only [Bool.not_false, Bool.true_and, decide_eq_true_eq] at hcond
      rwa [hcond] at hib
    · intro hkb
      refine ⟨k, hkb, ?_⟩
      rw [hd k, h1 k]
      simp
  have hkslice := mem_slices_of_lt hB hk
  have hraisek : batchRaises R (sliceOf N B k) = true := (hraise _).mpr hkslice.2
  have hkskip : k ∈ skipped R N B := (mem_skipped hB).mpr ⟨hk, hraisek⟩
  have hne : skipped R N B ≠ [] := List.ne_nil_of_mem hkskip
  have hex : ∃ b ∈ slices N B, batchRaises R b = false := by
    by_cases hkB : k < B
    · have hBN' : B < N := hBN
      refine ⟨sliceOf N B B, (mem_slices_of_lt hB hBN').1, ?_⟩
      have hnotmem : k ∉ sliceOf N B B := by
        rw [mem_sliceOf_iff hB hBN']
        rintro ⟨-, hdiv⟩
        rw [Nat.div_self hB, Nat.div_eq_of_lt hkB] at hdiv
        exact Nat.zero_ne_one hdiv
      cases hcase : batchRaises R (sliceOf N B B)
      · rfl
      · exact absurd ((hraise _).mp hcase) hnotmem
    · have h0N : 0 < N := by omega
      refine ⟨sliceOf N B 0, (mem_slices_of_lt hB h0N).1, ?_⟩
      have hnotmem : k ∉ sliceOf N B 0 := by
        rw [mem_sliceOf_iff hB h0N]
        rintro ⟨-, hdiv⟩
        rw [Nat.zero_div] at hdiv
        have hge : 1 ≤ k / B := (Nat.one_le_div_iff hB).mpr (by omega)
        omega
      cases hcase : batchRaises R (sliceOf N B 0)
      · rfl
      · exact absurd ((hraise _).mp hcase) hnotmem
  have hnotall : ¬((slices N B).all (fun b => batchRaises R b) = true) := by
    intro hall
    obtain ⟨b, hb, hfalse⟩ := hex
    have := List.all_eq_true.mp hall b hb
    rw [hfalse] at this
    exact Bool.noConfusion this
  have hss : stillSkipped R N B = [k] := by
    unfold stillSkipped
    apply filter_eq_single_of_nodup (skipped_nodup R N B) hkskip
    · simp [retrySucceeds, hd k, h2 k]
    · intro i _ hpi
      simp only [retrySucceeds, hd i, h2 i, Bool.false_or, Bool.not_not,
        decide_eq_true_eq] at hpi
      exact hpi
  constructor
  · unfold pipelineReport
    rw [if_neg hne, if_neg hnotall, hss]
  · intro i hiR hik
    have hiN : i < N := List.mem_range.mp hiR
    by_cases hr : batchRaises R (sliceOf N B i) = true
    · refine List.mem_append.mpr (Or.inr (mem_retryOutput.mpr
        ⟨(mem_skipped hB).mpr ⟨hiN, hr⟩, hd i, ?_⟩))
      rw [h2 i]
      simp [hik]
    · have hrf : batchRaises R (sliceOf N B i) = false := by
        cases hcase : batchRaises R (sliceOf N B i)
        · rfl
        · exact absurd hcase hr
      exact List.mem_append.mpr (Or.inl ((mem_primaryOutput hB).mpr ⟨hiN, hd i, hrf⟩))

/-- C1 (witness): three rows, batch size two, row 0 permanently failing:
the report is exactly `[0]` and rows 1 and 2 are written to the output. -/
theorem c1_witness :
    pipelineReport ⟨fun _ => false, fun i => decide (i = 0), fun i => decide (i = 0)⟩ 3 2
        = some [0] ∧
      1 ∈ finalOutput ⟨fun _ => false, fun i => decide (i = 0), fun i => decide (i = 0)⟩ 3 2 ∧
      2 ∈ finalOutput ⟨fun _ => false, fun i => decide (i = 0), fun i => decide (i = 0)⟩ 3 2 := by
  have h := c1_permanent_failure_reported
    ⟨fun _ => false, fun i => decide (i = 0), fun i => decide (i = 0)⟩ 3 2 0
    (by decide) (by decide) (by decide) (fun _ => rfl) (fun _ => rfl) (fun _ => rfl)
  exact ⟨h.1, h.2 1 (by decide) (by decide), h.2 2 (by decide) (by decide)⟩

/-- C2 (counterexample): two rows in one batch of size two; row 0 raises,
row 1 does not.  The claim says row 1 is still processed and added to the
processed set during the primary pass; in the code `process_batch` has no
per-row `try`, the whole batch raises, and row 1 is only picked up by the
retry pass. -/
theorem c2_whole_batch_skipped :
    (⟨fun _ => false, fun i => decide (i = 0), fun _ => false⟩ : Rows).fails1 1 = false ∧
      1 ∉ primaryProcessed ⟨fun _ => false, fun i => decide (i = 0), fun _ => false⟩ 2 2 ∧
      1 ∈ skipped ⟨fun _ => false, fun i => decide (i = 0), fun _ => false⟩ 2 2 := by
  refine ⟨by decide, by decide, by decide⟩

/-- C2 (amended): in the primary pass failure isolation is per *batch*,
not per row: an index is recorded as processed iff its whole batch raised
no exception, and as soon as any row of the batch raises, every index of
that batch (failing or not) is left to the retry pass via `skipped`. -/
theorem c2_batch_granular_isolation (R : Rows) (N B i : Nat) (hB : 0 < B) :
    (i ∈ primaryProcessed R N B ↔
        i < N ∧ batchRaises R (sliceOf N B i) = false) ∧
      (i < N → batchRaises R (sliceOf N B i) = true →
        i ∉ primaryProcessed R N B ∧ i ∈ skipped R N B) := by
  refine ⟨mem_primaryProcessed hB, fun hiN hr => ⟨?_, (mem_skipped hB).mpr ⟨hiN, hr⟩⟩⟩
  rw [mem_primaryProcessed hB]
  rintro ⟨-, hfalse⟩
  rw [hr] at hfalse
  exact Bool.noConfusion hfalse

/-- C2 (witness): concrete instance of `c2_batch_granular_isolation` at
`N = 2`, `B = 2`, `i = 1` with row 0 failing: index 1 is not primary
processed and lands in `skipped`. -/
theorem c2_witness :
    (1 ∈ primaryProcessed ⟨fun _ => false, fun i => decide (i = 0), fun _ => false⟩ 2 2 ↔
        1 < 2 ∧ batchRaises ⟨fun _ => false, fun i => decide (i = 0), fun _ => false⟩
          (sliceOf 2 2 1) = false) ∧
      (1 < 2 → batchRaises ⟨fun _ => false, fun i => decide (i = 0), fun _ => false⟩
          (sliceOf 2 2 1) = true →
        1 ∉ primaryProcessed ⟨fun _ => false, fun i => decide (i = 0), fun _ => false⟩ 2 2 ∧
          1 ∈ skipped ⟨fun _ => false, fun i => decide (i = 0), fun _ => false⟩ 2 2) :=
  c2_batch_granular_isolation ⟨fun _ => false, fun i => decide (i = 0), fun _ => false⟩
    2 2 1 (by decide)

/-- C3 (counterexample): three rows, batch size two.  After the first
batch `[0, 1]` the processed set is `{0, 1}`, so the claim predicts the
final short batch is padded with already-processed rows up to size two;
the code builds the final batch as `[2]` of size one — there is no
padding. -/
theorem c3_final_batch_not_padded :
    slices 3 2 = [[0, 1], [2]] ∧
      (slices 3 2).getLast?.map List.length = some 1 ∧
      ¬((slices 3 2).getLast?.map List.length = some 2) := by
  refine ⟨by decide, by decide, by decide⟩

/-- C3 (amended): the batch partition never pads: the batches concatenate
to exactly `0..N-1` (so no index is ever re-included, in particular no
already-processed row re-enters a later batch) and when `N` is not a
multiple of `B` the final batch is the short run
`[N/B*B, …, N-1]` of length `N % B < B`. -/
theorem c3_no_padding (N B : Nat) (hB : 0 < B) (hshort : N % B ≠ 0) :
    (slices N B).flatten = List.range N ∧
      (slices N B).getLast? = some (List.range' (N / B * B) (N % B)) ∧
      N % B < B := by
  refine ⟨by rw [slices]; exact chunks_flatten B (List.range N), ?_, Nat.mod_lt _ hB⟩
  have hN : 0 < N := by
    rcases Nat.eq_zero_or_pos N with h | h
    · rw [h] at hshort
      simp at hshort
    · exact h
  rw [slices_eq N B hB, numBatches_eq_of_pos hB hN, List.range_succ, List.map_append,
    List.map_cons, List.map_nil, List.getLast?_concat]
  have h1 : B * (N / B) + N % B = N := Nat.div_add_mod N B
  have h2 : N % B < B := Nat.mod_lt _ hB
  have h3 : N / B * B = B * (N / B) := Nat.mul_comm _ _
  have hq : (N - 1) / B = N / B :=
    Nat.div_eq_of_lt_le (by omega) (by rw [Nat.succ_mul]; omega)
  rw [hq]
  have h4 : N - N / B * B = N % B := by omega
  rw [h4, Nat.min_eq_right (Nat.le_of_lt h2)]

/-- C3 (witness): ten rows with batch size four: the batches concatenate
to `0..9` and the final batch is `[8, 9]` of length `10 % 4 = 2 < 4`. -/
theorem c3_witness :
    (slices 10 4).flatten = List.range 10 ∧
      (slices 10 4).getLast? = some (List.range' (10 / 4 * 4) (10 % 4)) ∧
      10 % 4 < 4 :=
  c3_no_padding 10 4 (by decide) (by decide)

/-- C4 (counterexample): four rows, batch size two, row 0 raising only on
the first attempt.  The claim says the output keeps the input identity
order; instead batch `[0, 1]` raises, batch `[2, 3]` is written first,
and rows 0 and 1 are appended by the retry pass: the output row order is
`[2, 3, 0, 1]`, not ascending. -/
theorem c4_retry_rows_appended_last :
    finalOutput ⟨fun _ => false, fun i => decide (i = 0), fun _ => false⟩ 4 2
        = [2, 3, 0, 1] ∧
      ¬ List.Pairwise (· ≤ ·)
        (finalOutput ⟨fun _ => false, fun i => decide (i = 0), fun _ => false⟩ 4 2) := by
  refine ⟨by decide, by decide⟩

/-- C4 (amended): the output is the primary-pass rows followed by the
retry-pass rows; each of the two segments is in input (ascending
`original_index`) order, and when no row fails the primary pass the whole
output is exactly the input order minus the draft-filtered rows.  Rows
completed only during retry are appended after all primary-pass rows. -/
theorem c4_output_order (R : Rows) (N B : Nat) (hB : 0 < B)
    (hOK : pipelineReport R N B ≠ none) :
    finalOutput R N B = primaryOutput R N B ++ retryOutput R N B ∧
      (primaryOutput R N B).Sublist (List.range N) ∧
      (retryOutput R N B).Sublist (List.range N) ∧
      ((List.range N).all (fun i => !R.fails1 i) = true →
        finalOutput R N B = (List.range N).filter (fun i => !R.draft i)) := by
  refine ⟨rfl, ?_, ?_, ?_⟩
  · have h := flatten_map_sublist
      (fun b => if batchRaises R b then [] else b.filter (fun i => !R.draft i))
      (fun b => by by_cases hr : batchRaises R b <;> simp [hr, List.filter_sublist])
      (slices N B)
    unfold primaryOutput
    rw [slices_flatten] at h
    exact h
  · unfold retryOutput skipped
    exact ((List.filter_sublist _).trans (List.filter_sublist _))
  · intro hall
    have hno : ∀ i, i < N → R.fails1 i = false := by
      intro i hiN
      have := List.all_eq_true.mp hall i (List.mem_range.mpr hiN)
      simpa using this
    have hnoraise : ∀ b ∈ slices N B, batchRaises R b = false :=
      fun b hb => batchRaises_eq_false_of_no_failure hB hno hb
    have hprim : primaryProcessed R N B = List.range N := by
      unfold primaryProcessed
      rw [List.map_congr_left (fun b hb => if_neg (by rw [hnoraise b hb]; simp)),
        List.map_id', slices_flatten]
    have hskip : skipped R N B = [] := by
      unfold skipped
      apply List.filter_eq_nil_iff.mpr
      intro i hi
      rw [hprim]
      simp [List.mem_range.mp hi]
    have hout : primaryOutput R N B = (List.range N).filter (fun i => !R.draft i) := by
      unfold primaryOutput
      rw [List.map_congr_left (fun b hb => if_neg (by rw [hnoraise b hb]; simp)),
        ← List.filter_flatten, slices_flatten]
    unfold finalOutput retryOutput
    rw [hskip, List.filter_nil, List.append_nil, hout]

/-! ### Character-level lemmas for the slugifier -/

theorem toNat_charOfNat (m : Nat) (h : m < 55296) : (Char.ofNat m).toNat = m := by
  have hv : m.isValidChar := Or.inl h
  simp [Char.ofNat, hv, Char.ofNatAux, Char.toNat, UInt32.toNat, BitVec.toNat_ofNatLt]

theorem toLower_toNat_of_upper {c : Char} (h : 65 ≤ c.toNat ∧ c.toNat ≤ 90) :
    (Char.toLower c).toNat = c.toNat + 32 := by
  unfold Char.toLower
  rw [if_pos (by exact ⟨h.1, h.2⟩)]
  exact toNat_charOfNat _ (by omega)

theorem toLower_eq_self_of_not_upper {c : Char} (h : ¬(65 ≤ c.toNat ∧ c.toNat ≤ 90)) :
    Char.toLower c = c := by
  unfold Char.toLower
  rw [if_neg (by exact fun hc => h ⟨hc.1, hc.2⟩)]

theorem mem_collapseAux :
    ∀ (b : Bool) (l : List Char) (c : Char), c ∈ collapseAux b l →
      c = '-' ∨ (c ∈ l ∧ isRunChar c = false)
  | _, [], c, h => absurd h (List.not_mem_nil c)
  | b, d :: rest, c, h => by
      simp only [collapseAux] at h
      by_cases hd : isRunChar d
      · rw [if_pos hd] at h
        cases b with
        | true =>
            rcases mem_collapseAux true rest c h with h1 | ⟨h2, h3⟩
            · exact Or.inl h1
            · exact Or.inr ⟨List.mem_cons_of_mem _ h2, h3⟩
        | false =>
            rcases List.mem_cons.mp h with rfl | h'
            · exact Or.inl rfl
            · rcases mem_collapseAux true rest c h' with h1 | ⟨h2, h3⟩
              · exact Or.inl h1
              · exact Or.inr ⟨List.mem_cons_of_mem _ h2, h3⟩
      · rw [if_neg hd] at h
        rcases List.mem_cons.mp h with rfl | h'
        · exact Or.inr ⟨List.mem_cons_self _ _, Bool.eq_false_iff.mpr hd⟩
        · rcases mem_collapseAux false rest c h' with h1 | ⟨h2, h3⟩
          · exact Or.inl h1
          · exact Or.inr ⟨List.mem_cons_of_mem _ h2, h3⟩

theorem mem_pyStripL {c : Char} {l : List Char} (h : c ∈ pyStripL l) : c ∈ l := by
  unfold pyStripL at h
  rw [List.mem_reverse] at h
  have h1 := (List.dropWhile_sublist _).subset h
  rw [List.mem_reverse] at h1
  exact (List.dropWhile_sublist _).subset h1

theorem mem_dropLeadingDigits {c : Char} :
    ∀ {l : List Char}, c ∈ dropLeadingDigits l → c ∈ l
  | [], h => h
  | d :: l, h => by
      simp only [dropLeadingDigits] at h
      by_cases hdig : d.isDigit
      · rw [if_pos hdig] at h
        have h1 := (List.dropWhile_sublist _).subset h
        exact (List.dropWhile_sublist _).subset h1
      · rwa [if_neg hdig] at h

theorem mem_slugifyL {c : Char} {l : List Char} (hc : c ∈ slugifyL l) :
    slugChar c = true := by
  unfold slugifyL at hc
  rcases mem_collapseAux false _ c hc with rfl | ⟨hmem, hrun⟩
  · decide
  · obtain ⟨d, hd3, rfl⟩ := List.mem_map.mp hmem
    have hd2 := mem_pyStripL hd3
    have hcond := (List.mem_filter.mp hd2).2
    simp only [isWordChar, pySpace, Bool.or_eq_true, Bool.and_eq_true,
      decide_eq_true_eq] at hcond
    by_cases hup : 65 ≤ d.toNat ∧ d.toNat ≤ 90
    · have h1 := toLower_toNat_of_upper hup
      simp only [slugChar, Bool.or_eq_true, Bool.and_eq_true, decide_eq_true_eq]
      exact Or.inl (Or.inl ⟨by omega, by omega⟩)
    · have h1 : Char.toLower d = d := toLower_eq_self_of_not_upper hup
      rw [h1] at hrun ⊢
      have hno : ¬(isRunChar d = true) := by simp [hrun]
      simp only [slugChar, Bool.or_eq_true, Bool.and_eq_true, decide_eq_true_eq]
      rcases hcond with ((((hdig | hAZ) | haz) | h95) | hsp) | hhyph
      · exact Or.inl (Or.inr hdig)
      · exact absurd hAZ hup
      · exact Or.inl (Or.inl haz)
      · refine absurd ?_ hno
        simp only [isRunChar, pySpace, Bool.or_eq_true, Bool.and_eq_true,
          decide_eq_true_eq]
        exact Or.inl (Or.inr h95)
      · refine absurd ?_ hno
        simp only [isRunChar, pySpace, Bool.or_eq_true, Bool.and_eq_true,
          decide_eq_true_eq]
        exact Or.inl (Or.inl hsp)
      · subst hhyph
        exact Or.inr rfl

/-! ## Claim theorems: slugifier, draft filtering, schema -/

/-- C5 (counterexample): `slugify("-a-")` returns `"-a-"` in both
scripts: only *whitespace* is stripped before lowercasing, hyphens
already at the ends survive the run collapse, so the output has a
leading and a trailing hyphen, contradicting the claimed
no-leading/trailing-hyphen guarantee. -/
theorem c5_hyphens_kept :
    slugify "-a-" = "-a-" ∧ CsvOnly.slugify "-a-" = "-a-" ∧
      (slugify "-a-").data.head? = some '-' ∧
      (slugify "-a-").data.getLast? = some '-' := by
  refine ⟨by decide, by decide, by decide, by decide⟩

/-- C5 (amended): both slugify variants are total and produce only
characters in `[a-z0-9-]`, and the empty string maps to the empty
string; leading/trailing *whitespace* is trimmed but a leading or
trailing hyphen is kept (see `c5_hyphens_kept`). -/
theorem c5_slugify_char_class (s : String) :
    (∀ c ∈ (slugify s).data, slugChar c = true) ∧
      (∀ c ∈ (CsvOnly.slugify s).data, slugChar c = true) ∧
      slugify "" = "" ∧ CsvOnly.slugify "" = "" := by
  refine ⟨?_, ?_, by decide, by decide⟩
  · intro c hc
    exact mem_slugifyL hc
  · intro c hc
    exact mem_slugifyL (mem_dropLeadingDigits hc)

/-- C9 (counterexample): a single draft row (status `" Draft "`).  The
claim says its index appears in neither the processed index set nor any
retry accounting; in the code `processed_indices.update(batch_indices)`
adds the *pre-filter* batch indices, so the draft row's index 0 IS
recorded in the processed set (which is exactly what keeps it out of the
retry accounting). -/
theorem c9_draft_in_processed_set :
    isDraftStatus (some " Draft ") = true ∧
      0 ∈ primaryProcessed
        (mkRows (fun _ => some " Draft ") (fun _ => false) (fun _ => false)) 1 1 := by
  refine ⟨by decide, by decide⟩

/-- C9 (amended): a row whose trimmed, lowercased status is `"draft"` is
excluded from the output as filtered rather than failed: it never
appears in the output rows, never appears in the permanent-failure
report, and — when its batch raises no exception — its index is recorded
in the processed index set and is therefore absent from the retry set. -/
theorem c9_draft_filtered_not_failed (status : Nat → Option String)
    (f1 f2 : Nat → Bool) (N B i : Nat) (hB : 0 < B) (hi : i < N)
    (hd : isDraftStatus (status i) = true) :
    i ∉ finalOutput (mkRows status f1 f2) N B ∧
      i ∉ stillSkipped (mkRows status f1 f2) N B ∧
      (batchRaises (mkRows status f1 f2) (sliceOf N B i) = false →
        i ∈ primaryProcessed (mkRows status f1 f2) N B ∧
          i ∉ skipped (mkRows status f1 f2) N B) := by
  have hdraft : (mkRows status f1 f2).draft i = true := hd
  refine ⟨?_, ?_, ?_⟩
  · intro hmem
    rcases List.mem_append.mp hmem with h | h
    · have h2 := ((mem_primaryOutput hB).mp h).2.1
      rw [hdraft] at h2
      exact Bool.noConfusion h2
    · have h2 := (mem_retryOutput.mp h).2.1
      rw [hdraft] at h2
      exact Bool.noConfusion h2
  · intro hmem
    have h2 := (mem_stillSkipped.mp hmem).2.1
    rw [hdraft] at h2
    exact Bool.noConfusion h2
  · intro hr
    refine ⟨(mem_primaryProcessed hB).mpr ⟨hi, hr⟩, ?_⟩
    intro hmem
    have h2 := ((mem_skipped hB).mp hmem).2
    rw [hr] at h2
    exact Bool.noConfusion h2

/-- C9 (witness): the draft row of `c9_draft_in_processed_set` is not in
the output, not reported as failed, and (its batch raising nothing) sits
in the processed set and not in the retry set. -/
theorem c9_witness :
    0 ∉ finalOutput
        (mkRows (fun _ => some " Draft ") (fun _ => false) (fun _ => false)) 1 1 ∧
      0 ∉ stillSkipped
        (mkRows (fun _ => some " Draft ") (fun _ => false) (fun _ => false)) 1 1 ∧
      (batchRaises (mkRows (fun _ => some " Draft ") (fun _ => false) (fun _ => false))
          (sliceOf 1 1 0) = false →
        0 ∈ primaryProcessed
            (mkRows (fun _ => some " Draft ") (fun _ => false) (fun _ => false)) 1 1 ∧
          0 ∉ skipped
            (mkRows (fun _ => some " Draft ") (fun _ => false) (fun _ => false)) 1 1) :=
  c9_draft_filtered_not_failed (fun _ => some " Draft ") (fun _ => false) (fun _ => false)
    1 1 0 (by decide) (by decide) (by decide)

/-- C10: if some input header normalizes to `status`, the output schema
contains no `status` column at all, and every remaining header is the
trimmed lowercased form of an input header, kept in input order
(`Sublist` of the normalized header list). -/
theorem c10_status_dropped_headers_normalized (cols : List String)
    (hst : ∃ c0 ∈ cols, normalizeCol c0 = "status") :
    "status" ∉ processBatchColumns cols ∧
      (processBatchColumns cols).Sublist (cols.map normalizeCol) ∧
      ∀ c ∈ processBatchColumns cols, ∃ c0 ∈ cols, c = normalizeCol c0 := by
  have hnost : ∀ l : List String, "status" ∉ dropStatusColumn l := by
    intro l hmem
    unfold dropStatusColumn at hmem
    by_cases hin : "status" ∈ l
    · rw [if_pos hin] at hmem
      have h2 := (List.mem_filter.mp hmem).2
      simp at h2
    · rw [if_neg hin] at hmem
      exact hin hmem
  have hsubAI : ∀ l : List String, (dropAllImagesColumn l).Sublist l := by
    intro l
    unfold dropAllImagesColumn
    by_cases h2 : "all images" ∈ l
    · rw [if_pos h2]
      exact List.filter_sublist _
    · rw [if_neg h2]
  have hsubST : ∀ l : List String, (dropStatusColumn l).Sublist l := by
    intro l
    unfold dropStatusColumn
    by_cases h2 : "status" ∈ l
    · rw [if_pos h2]
      exact List.filter_sublist _
    · rw [if_neg h2]
  have hsub : (processBatchColumns cols).Sublist (cols.map normalizeCol) :=
    (hsubAI _).trans (hsubST _)
  refine ⟨?_, hsub, ?_⟩
  · intro hmem
    exact hnost _ ((hsubAI _).subset hmem)
  · intro c hc
    obtain ⟨c0, hc0, he⟩ := List.mem_map.mp (hsub.subset hc)
    exact ⟨c0, hc0, he.symm⟩

/-- C10 (witness): headers `"Status "`, `" Name"`, `"All Images"`: the
output schema is `["name"]` — no status column, normalized headers. -/
theorem c10_witness :
    "status" ∉ processBatchColumns ["Status ", " Name", "All Images"] ∧
      (processBatchColumns ["Status ", " Name", "All Images"]).Sublist
        (["Status ", " Name", "All Images"].map normalizeCol) :=
  ⟨(c10_status_dropped_headers_normalized ["Status ", " Name", "All Images"]
      ⟨"Status ", by decide, by decide⟩).1,
    (c10_status_dropped_headers_normalized ["Status ", " Name", "All Images"]
      ⟨"Status ", by decide, by decide⟩).2.1⟩

/-- C4 (witness): three rows, batch size two, no failures, row 1 a draft:
the output is `[0, 2]`, the input order minus the filtered draft. -/
theorem c4_witness :
    finalOutput ⟨fun i => decide (i = 1), fun _ => false, fun _ => false⟩ 3 2
        = primaryOutput ⟨fun i => decide (i = 1), fun _ => false, fun _ => false⟩ 3 2
          ++ retryOutput ⟨fun i => decide (i = 1), fun _ => false, fun _ => false⟩ 3 2 ∧
      (primaryOutput ⟨fun i => decide (i = 1), fun _ => false, fun _ => false⟩ 3 2).Sublist
        (List.range 3) ∧
      (retryOutput ⟨fun i => decide (i = 1), fun _ => false, fun _ => false⟩ 3 2).Sublist
        (List.range 3) ∧
      ((List.range 3).all
          (fun i => !(⟨fun i => decide (i = 1), fun _ => false, fun _ => false⟩ : Rows).fails1 i)
            = true →
        finalOutput ⟨fun i => decide (i = 1), fun _ => false, fun _ => false⟩ 3 2
          = (List.range 3).filter
              (fun i => !(⟨fun i => decide (i = 1), fun _ => false, fun _ => false⟩ : Rows).draft i)) :=
  c4_output_order ⟨fun i => decide (i = 1), fun _ => false, fun _ => false⟩ 3 2
    (by decide) (by decide)

/-! ### Structural lemmas for the HTML transform -/

theorem countTagL_append (t : String) :
    ∀ l1 l2 : List Html, countTagL t (l1 ++ l2) = countTagL t l1 + countTagL t l2
  | [], l2 => by simp [countTagL]
  | x :: r, l2 => by
      have ih := countTagL_append t r l2
      simp only [List.cons_append, countTagL, List.append_eq]
      omega

theorem h2FreeInPL_append :
    ∀ l1 l2 : List Html, h2FreeInPL (l1 ++ l2) = (h2FreeInPL l1 && h2FreeInPL l2)
  | [], l2 => by simp [h2FreeInPL]
  | x :: r, l2 => by
      have ih := h2FreeInPL_append r l2
      simp only [List.cons_append, h2FreeInPL, List.append_eq, ih, Bool.and_assoc]

theorem anchorHrefsL_append :
    ∀ l1 l2 : List Html, anchorHrefsL (l1 ++ l2) = anchorHrefsL l1 ++ anchorHrefsL l2
  | [], l2 => by simp [anchorHrefsL]
  | x :: r, l2 => by
      have ih := anchorHrefsL_append r l2
      simp only [List.cons_append, anchorHrefsL, List.append_eq, ih, List.append_assoc]

mutual

theorem countE_nbsp (t : String) : ∀ x : Html, countTagE t (stepNbspE x) = countTagE t x
  | .text s => rfl
  | .elem t2 a ch => by simp only [stepNbspE, countTagE, countL_nbsp t ch]

theorem countL_nbsp (t : String) : ∀ f : List Html, countTagL t (stepNbspL f) = countTagL t f
  | [] => rfl
  | x :: r => by simp only [stepNbspL, countTagL, countE_nbsp t x, countL_nbsp t r]

end

mutual

theorem h2FreeE_nbsp : ∀ x : Html, h2FreeInPE (stepNbspE x) = h2FreeInPE x
  | .text s => rfl
  | .elem t a ch => by
      simp only [stepNbspE, h2FreeInPE]
      by_cases hp : t = "p"
      · rw [if_pos hp, if_pos hp, countL_nbsp "h2" ch]
      · rw [if_neg hp, if_neg hp, h2FreeL_nbsp ch]

theorem h2FreeL_nbsp : ∀ f : List Html, h2FreeInPL (stepNbspL f) = h2FreeInPL f
  | [] => rfl
  | x :: r => by simp only [stepNbspL, h2FreeInPL, h2FreeE_nbsp x, h2FreeL_nbsp r]

end

mutual

theorem countE_unwrap (t : String) (ht : t ≠ "strong") :
    ∀ x : Html, countTagL t (unwrapStrongE x) = countTagE t x
  | .text s => by simp [unwrapStrongE, countTagL, countTagE]
  | .elem t2 a ch => by
      simp only [unwrapStrongE]
      by_cases hs : t2 = "strong"
      · subst hs
        rw [if_pos rfl, countL_unwrap t ht ch]
        have hne : ¬("strong" = t) := fun h => ht h.symm
        simp [countTagE, hne]
      · rw [if_neg hs]
        simp [countTagL, countTagE, countL_unwrap t ht ch]

theorem countL_unwrap (t : String) (ht : t ≠ "strong") :
    ∀ f : List Html, countTagL t (unwrapStrongL f) = countTagL t f
  | [] => rfl
  | x :: r => by
      simp only [unwrapStrongL, countTagL_append, countE_unwrap t ht x, countL_unwrap t ht r,
        countTagL]

end


mutual

theorem h2FreeE_unwrap : ∀ x : Html, h2FreeInPL (unwrapStrongE x) = h2FreeInPE x
  | .text s => by simp [unwrapStrongE, h2FreeInPL, h2FreeInPE]
  | .elem t a ch => by
      simp only [unwrapStrongE]
      by_cases hs : t = "strong"
      · subst hs
        rw [if_pos rfl, h2FreeL_unwrap ch]
        simp [h2FreeInPE]
      · rw [if_neg hs]
        by_cases hp : t = "p"
        · simp [h2FreeInPL, h2FreeInPE, hp, countL_unwrap "h2" (by decide) ch]
        · simp [h2FreeInPL, h2FreeInPE, hp, h2FreeL_unwrap ch]

theorem h2FreeL_unwrap : ∀ f : List Html, h2FreeInPL (unwrapStrongL f) = h2FreeInPL f
  | [] => rfl
  | x :: r => by
      simp only [unwrapStrongL, h2FreeInPL_append, h2FreeE_unwrap x, h2FreeL_unwrap r,
        h2FreeInPL]

end

mutual

theorem countE_strong (t : String) (ht : t ≠ "strong") :
    ∀ x : Html, countTagE t (stepStrongE x) = countTagE t x
  | .text s => rfl
  | .elem t2 a ch => by
      simp only [stepStrongE]
      by_cases h3 : t2 = "h2" ∨ t2 = "h3" ∨ t2 = "p"
      · rw [if_pos h3]
        simp only [countTagE, countL_unwrap t ht ch]
      · rw [if_neg h3]
        simp only [countTagE, countL_strong t ht ch]

theorem countL_strong (t : String) (ht : t ≠ "strong") :
    ∀ f : List Html, countTagL t (stepStrongL f) = countTagL t f
  | [] => rfl
  | x :: r => by
      simp only [stepStrongL, countTagL, countE_strong t ht x, countL_strong t ht r]

end

mutual

theorem h2FreeE_strong : ∀ x : Html, h2FreeInPE (stepStrongE x) = h2FreeInPE x
  | .text s => rfl
  | .elem t a ch => by
      simp only [stepStrongE]
      by_cases h3 : t = "h2" ∨ t = "h3" ∨ t = "p"
      · rw [if_pos h3]
        by_cases hp : t = "p"
        · simp [h2FreeInPE, hp, countL_unwrap "h2" (by decide) ch]
        · simp [h2FreeInPE, hp, h2FreeL_unwrap ch]
      · rw [if_neg h3]
        have hp : ¬(t = "p") := fun h => h3 (Or.inr (Or.inr h))
        simp [h2FreeInPE, hp, h2FreeL_strong ch]

theorem h2FreeL_strong : ∀ f : List Html, h2FreeInPL (stepStrongL f) = h2FreeInPL f
  | [] => rfl
  | x :: r => by
      simp only [stepStrongL, h2FreeInPL, h2FreeE_strong x, h2FreeL_strong r]

end

mutual

theorem countE_p : ∀ x : Html, h2FreeInPE x = true →
    countTagE "h2" (stepPE x) = countTagE "h2" x
  | .text s, _ => rfl
  | .elem t a ch, hx => by
      simp only [stepPE]
      by_cases hp : t = "p"
      · rw [if_pos hp]
        have hc : countTagL "h2" ch = 0 := by
          simp only [h2FreeInPE, if_pos hp, beq_iff_eq] at hx
          exact hx
        simp [countTagE, countTagL, hp, hc]
      · rw [if_neg hp]
        have hx2 : h2FreeInPL ch = true := by
          simpa only [h2FreeInPE, if_neg hp] using hx
        simp only [countTagE, countL_p ch hx2]

theorem countL_p : ∀ f : List Html, h2FreeInPL f = true →
    countTagL "h2" (stepPL f) = countTagL "h2" f
  | [], _ => rfl
  | x :: r, h => by
      have hx : h2FreeInPE x = true ∧ h2FreeInPL r = true := by
        simpa only [h2FreeInPL, Bool.and_eq_true] using h
      simp only [stepPL, countTagL, countE_p x hx.1, countL_p r hx.2]

end

mutual

theorem h2TextsE_length : ∀ x : Html, (h2TextsE x).length = countTagE "h2" x
  | .text s => rfl
  | .elem t a ch => by
      simp only [h2TextsE, countTagE, List.length_append, h2TextsL_length ch]
      by_cases hp : t = "h2" <;> simp [hp, Nat.add_comm]

theorem h2TextsL_length : ∀ f : List Html, (h2TextsL f).length = countTagL "h2" f
  | [] => rfl
  | x :: r => by
      simp only [h2TextsL, countTagL, List.length_append, h2TextsE_length x,
        h2TextsL_length r]

end

theorem countTag_preH2 (f : List Html) (hp : h2FreeInPL f = true) :
    countTagL "h2" (preH2 f) = countTagL "h2" f := by
  unfold preH2
  have h1 : h2FreeInPL (stepStrongL (stepNbspL f)) = true := by
    rw [h2FreeL_strong, h2FreeL_nbsp]
    exact hp
  rw [countL_p _ h1, countL_strong "h2" (by decide), countL_nbsp]

theorem lookup_setAttr (a : List (String × String)) (k v : String) :
    List.lookup k (setAttr a k v) = some v := by
  unfold setAttr
  by_cases h : a.any (fun p => p.1 == k)
  · rw [if_pos h]
    induction a with
    | nil => simp at h
    | cons p rest ih =>
        obtain ⟨p1, p2⟩ := p
        simp only [List.any_cons, Bool.or_eq_true] at h
        rw [List.map_cons]
        by_cases hp : (p1 == k) = true
        · simp [hp]
        · rw [if_neg (by simpa using hp)]
          have hk : (k == p1) = false := by
            rw [beq_eq_false_iff_ne]
            intro he
            exact hp (by rw [← he]; exact beq_self_eq_true _)
          rw [List.lookup_cons]
          simp only [hk, Bool.false_eq_true, if_false]
          apply ih
          rcases h with h1 | h2
          · exact absurd h1 hp
          · exact h2
  · rw [if_neg h]
    induction a with
    | nil => simp
    | cons p rest ih =>
        obtain ⟨p1, p2⟩ := p
        simp only [List.any_cons, Bool.or_eq_true, not_or] at h
        have hk : (k == p1) = false := by
          rw [beq_eq_false_iff_ne]
          intro he
          exact h.1 (by rw [he]; exact beq_self_eq_true _)
        rw [List.cons_append, List.lookup_cons]
        simp only [hk, Bool.false_eq_true, if_false]
        exact ih h.2

mutual

theorem countE_ahref (t : String) : ∀ x : Html, countTagE t (stepAHrefE x) = countTagE t x
  | .text s => rfl
  | .elem t2 a ch => by simp only [stepAHrefE, countTagE, countL_ahref t ch]

theorem countL_ahref (t : String) : ∀ f : List Html, countTagL t (stepAHrefL f) = countTagL t f
  | [] => rfl
  | x :: r => by simp only [stepAHrefL, countTagL, countE_ahref t x, countL_ahref t r]

end

mutual

theorem anchorE_ahref : ∀ x : Html,
    anchorHrefsE (stepAHrefE x) = (anchorHrefsE x).map (Option.map rewriteHref)
  | .text s => rfl
  | .elem t a ch => by
      simp only [stepAHrefE, anchorHrefsE]
      by_cases ha : t = "a"
      · subst ha
        cases hlk : List.lookup "href" a with
        | none => simp [hlk, anchorL_ahref ch]
        | some u =>
            by_cases hpath : urlPath u ≠ ""
            · simp [hlk, hpath, lookup_setAttr, anchorL_ahref ch, rewriteHref]
            · simp [hlk, hpath, anchorL_ahref ch, rewriteHref]
      · simp [ha, anchorL_ahref ch]

theorem anchorL_ahref : ∀ f : List Html,
    anchorHrefsL (stepAHrefL f) = (anchorHrefsL f).map (Option.map rewriteHref)
  | [] => rfl
  | x :: r => by
      simp only [stepAHrefL, anchorHrefsL, List.map_append, anchorE_ahref x, anchorL_ahref r]

end

mutual

theorem countA_unwrapE : ∀ x : Html, countTagL "a" (stepAUnwrapE x) = 0
  | .text s => rfl
  | .elem t a ch => by
      simp only [stepAUnwrapE]
      by_cases ha : t = "a"
      · rw [if_pos ha]
        simp [countTagL, countTagL_append, countA_unwrapL ch, countTagE]
      · rw [if_neg ha]
        simp [countTagL, countTagE, ha, countA_unwrapL ch]

theorem countA_unwrapL : ∀ f : List Html, countTagL "a" (stepAUnwrapL f) = 0
  | [] => rfl
  | x :: r => by
      simp only [stepAUnwrapL, countTagL_append, countA_unwrapE x, countA_unwrapL r]

end

/-! ## Claim theorems: HTML transform -/

/-- C6 (counterexample): a fragment with two `h2` headings and no `h3`.
The claim says each TOC item is an anchor link; in
`clean_html_posts-stable.py` the anchor-unwrap loop (lines 111–114)
runs *after* the TOC insertion and unwraps the TOC's own anchors, so
the stable output contains no anchor element at all, while the
`process-csv-only.py` output keeps exactly the two TOC anchor links. -/
theorem c6_stable_toc_links_unwrapped :
    countTagL "a" (transform_html_body
        [Html.elem "h2" [] [Html.text "A"], Html.elem "h2" [] [Html.text "B"]]) = 0 ∧
      countTagL "a" (CsvOnly.transform_html_body
        [Html.elem "h2" [] [Html.text "A"], Html.elem "h2" [] [Html.text "B"]]) = 2 := by
  refine ⟨by decide, by decide⟩

/-- C6 (amended): for every fragment with exactly two `h2` elements
(none nested inside a `p`, which would destroy it before the `h2` loop)
and no `h3`, both transforms emit exactly one TOC block as the first
node of the output, whose ordered list has exactly two items in document
order labeled with the numbering-stripped heading texts; in
`process-csv-only.py` each item is an anchor link `#slug` (see
`tocBlock`/`tocLi`), while in `clean_html_posts-stable.py` the final
anchor-unwrap pass reduces each item to its label text surrounded by
spaces. -/
theorem c6_toc_structure (f : List Html)
    (hh2 : countTagL "h2" f = 2) (hh3 : countTagL "h3" f = 0)
    (hfree : h2FreeInPL f = true) :
    ∃ t1 t2,
      h2TextsL (preH2 f) = [t1, t2] ∧
      (∃ rest, CsvOnly.transform_html_body f =
        tocBlock
          [(CsvOnly.slugify (removeLeadingNumbering t1), removeLeadingNumbering t1),
           (CsvOnly.slugify (removeLeadingNumbering t2), removeLeadingNumbering t2)] :: rest) ∧
      (∃ rest, transform_html_body f =
        Html.elem "div"
          [("style", "background-color: #f9f9f9; padding: 16px; border-radius: 8px; margin-bottom: 20px;")]
          [Html.elem "strong" [] [Html.text "Table of Contents"],
           Html.elem "ol" [("style", "padding-left: 20px; margin-top: 8px; line-height: 1.8;")]
             [Html.elem "li" []
                [Html.text " ", Html.text (removeLeadingNumbering t1), Html.text " "],
              Html.elem "li" []
                [Html.text " ", Html.text (removeLeadingNumbering t2), Html.text " "]]]
          :: rest) := by
  have hlen : (h2TextsL (preH2 f)).length = 2 := by
    rw [h2TextsL_length, countTag_preH2 f hfree, hh2]
  obtain ⟨t1, t2, hT⟩ := List.length_eq_two.mp hlen
  refine ⟨t1, t2, hT, ?_, ?_⟩
  · have heq : CsvOnly.transform_html_body f =
        tocBlock
          [(CsvOnly.slugify (removeLeadingNumbering t1), removeLeadingNumbering t1),
           (CsvOnly.slugify (removeLeadingNumbering t2), removeLeadingNumbering t2)] ::
          stepAHrefL (stepImgL (stepH3L (stepH2L CsvOnly.slugify (preH2 f)))) := by
      simp only [CsvOnly.transform_html_body, tocEntries, hT, List.map_cons, List.map_nil]
      rw [if_neg (List.cons_ne_nil _ _)]
    exact ⟨_, heq⟩
  · have heq : transform_html_body f =
        Html.elem "div"
          [("style", "background-color: #f9f9f9; padding: 16px; border-radius: 8px; margin-bottom: 20px;")]
          [Html.elem "strong" [] [Html.text "Table of Contents"],
           Html.elem "ol" [("style", "padding-left: 20px; margin-top: 8px; line-height: 1.8;")]
             [Html.elem "li" []
                [Html.text " ", Html.text (removeLeadingNumbering t1), Html.text " "],
              Html.elem "li" []
                [Html.text " ", Html.text (removeLeadingNumbering t2), Html.text " "]]]
          :: stepAUnwrapL (stepImgL (stepH3L (stepH2L slugify (preH2 f)))) := by
      simp only [transform_html_body, tocEntries, hT, List.map_cons, List.map_nil]
      rw [if_neg (List.cons_ne_nil _ _)]
      simp [stepAUnwrapL, stepAUnwrapE, tocBlock, tocLi]
    exact ⟨_, heq⟩

/-- C6 (witness): the two-heading fragment of
`c6_stable_toc_links_unwrapped` satisfies the hypotheses, and the
structured conclusion holds for it. -/
theorem c6_witness :
    countTagL "h2" [Html.elem "h2" [] [Html.text "A"], Html.elem "h2" [] [Html.text "B"]] = 2 ∧
      countTagL "h3" [Html.elem "h2" [] [Html.text "A"], Html.elem "h2" [] [Html.text "B"]] = 0 ∧
      h2FreeInPL [Html.elem "h2" [] [Html.text "A"], Html.elem "h2" [] [Html.text "B"]] = true ∧
      (∃ t1 t2,
        h2TextsL (preH2 [Html.elem "h2" [] [Html.text "A"], Html.elem "h2" [] [Html.text "B"]])
            = [t1, t2] ∧
        (∃ rest, CsvOnly.transform_html_body
            [Html.elem "h2" [] [Html.text "A"], Html.elem "h2" [] [Html.text "B"]] =
          tocBlock
            [(CsvOnly.slugify (removeLeadingNumbering t1), removeLeadingNumbering t1),
             (CsvOnly.slugify (removeLeadingNumbering t2), removeLeadingNumbering t2)] :: rest) ∧
        (∃ rest, transform_html_body
            [Html.elem "h2" [] [Html.text "A"], Html.elem "h2" [] [Html.text "B"]] =
          Html.elem "div"
            [("style", "background-color: #f9f9f9; padding: 16px; border-radius: 8px; margin-bottom: 20px;")]
            [Html.elem "strong" [] [Html.text "Table of Contents"],
             Html.elem "ol" [("style", "padding-left: 20px; margin-top: 8px; line-height: 1.8;")]
               [Html.elem "li" []
                  [Html.text " ", Html.text (removeLeadingNumbering t1), Html.text " "],
                Html.elem "li" []
                  [Html.text " ", Html.text (removeLeadingNumbering t2), Html.text " "]]]
            :: rest)) :=
  ⟨by decide, by decide, by decide,
    c6_toc_structure [Html.elem "h2" [] [Html.text "A"], Html.elem "h2" [] [Html.text "B"]]
      (by decide) (by decide) (by decide)⟩

/-- C7 (counterexample): an anchor with an absolute `href`.  The claim
says the transform rewrites the href and preserves the anchor element;
`clean_html_posts-stable.py` (lines 111–114, cited by the claim)
instead unwraps every anchor: the output contains no anchor element. -/
theorem c7_stable_unwraps_anchors :
    countTagL "a" [(Html.elem "a" [("href", "https://e.com/x")] [Html.text "hi"] : Html)] = 1 ∧
      countTagL "a" (transform_html_body
        [Html.elem "a" [("href", "https://e.com/x")] [Html.text "hi"]]) = 0 := by
  refine ⟨by decide, by decide⟩

/-- C7 (amended): the two scripts treat anchors differently.  The
`process-csv-only.py` link pass preserves every anchor element (the
anchor count is unchanged) and rewrites each `href` to the URL's path
component when that component is non-empty, leaving it unchanged
otherwise (`rewriteHref`); absent `href` attributes stay absent.  The
`clean_html_posts-stable.py` pass instead unwraps every anchor — no
anchor element survives it. -/
theorem c7_anchor_behaviour (f : List Html) :
    countTagL "a" (stepAHrefL f) = countTagL "a" f ∧
      anchorHrefsL (stepAHrefL f) = (anchorHrefsL f).map (Option.map rewriteHref) ∧
      countTagL "a" (stepAUnwrapL f) = 0 :=
  ⟨countL_ahref "a" f, anchorL_ahref f, countA_unwrapL f⟩

/-- C8: the heading `"1. Getting Started"` yields anchor id
`"getting-started"` and TOC display text `"Getting Started"` (the
enumeration prefix is stripped for both), while the rendered heading
keeps the original text, bold-wrapped, with the `id` attribute set to
the anchor id. -/
theorem c8_heading_numbering :
    removeLeadingNumbering "1. Getting Started" = "Getting Started" ∧
      slugify (removeLeadingNumbering "1. Getting Started") = "getting-started" ∧
      tocEntries slugify (preH2 [Html.elem "h2" [] [Html.text "1. Getting Started"]])
        = [("getting-started", "Getting Started")] ∧
      transform_html_body [Html.elem "h2" [] [Html.text "1. Getting Started"]]
        = [Html.elem "div"
            [("style", "background-color: #f9f9f9; padding: 16px; border-radius: 8px; margin-bottom: 20px;")]
            [Html.elem "strong" [] [Html.text "Table of Contents"],
             Html.elem "ol" [("style", "padding-left: 20px; margin-top: 8px; line-height: 1.8;")]
               [Html.elem "li" [] [Html.text " ", Html.text "Getting Started", Html.text " "]]],
           Html.elem "h2" [("id", "getting-started"), ("style", "font-size: 24px; color:#000000;")]
             [Html.elem "b" [] [Html.text "1. Getting Started"]]] := by
  refine ⟨by decide, by decide, by decide, rfl⟩

end PostExtract
